import Mathlib

/-!
Verification of the Trello agentic tool layer.

A shallow embedding, over `List Char` strings, of the deterministic tool
layer of `agentic.py`: the date normalizer `_to_rfc3339_from_text`, the
board-reference normalizer `_board_shortlink`, the list resolver
`_get_list_id`, and the card/checklist mutation tools
`trello_create_card` / `trello_add_checklist`.  Network calls are
abstracted into an explicit `respond : ApiCall → Except …` oracle and the
functions return the exact trace of calls they issue, so that call-order,
skipping and partial-failure behaviour can be stated and proved.
-/

namespace TrelloAgentic

/-! ## Python string primitives (restricted to the alphabet this program uses) -/

/-- Whitespace characters removed by Python `str.strip()` (ASCII subset;
the program only ever strips spaces/tabs/newlines). -/
def isPySpace (c : Char) : Bool :=
  c = ' ' || c = '\t' || c = '\n' || c = '\r' || c = '\x0b' || c = '\x0c'

/-- Python `str.strip()`: drop leading and trailing whitespace. -/
def pyStrip (l : List Char) : List Char :=
  ((l.dropWhile isPySpace).reverse.dropWhile isPySpace).reverse

/-- Python `str.lower()` on one character, restricted to ASCII letters plus
`'Ã'`, the only non-ASCII cased character relevant to this program (the
keyword `amanhã`). -/
def pyLowerChar (c : Char) : Char :=
  if 'A' ≤ c ∧ c ≤ 'Z' then Char.ofNat (c.toNat + 32)
  else if c = 'Ã' then 'ã' else c

/-- Python `str.lower()`. -/
def pyLower (l : List Char) : List Char := l.map pyLowerChar

/-- Python substring test `pat in text`. -/
def hasInfix (pat : List Char) : List Char → Bool
  | [] => pat.isEmpty
  | c :: cs => pat.isPrefixOf (c :: cs) || hasInfix pat cs

/-- The character class `[0-9]` (`\d` of the regexes, ASCII model). -/
def isDigitC (c : Char) : Bool := '0' ≤ c && c ≤ '9'

/-- The character class `[A-Za-z0-9]`. -/
def isAlnumC (c : Char) : Bool :=
  ('A' ≤ c && c ≤ 'Z') || ('a' ≤ c && c ≤ 'z') || ('0' ≤ c && c ≤ '9')

/-- Decimal digit value of a digit character. -/
def digitVal (c : Char) : Nat := c.toNat - '0'.toNat

/-- The decimal digit character for `n % 10`. -/
def digitChar10 (n : Nat) : Char := Char.ofNat (48 + n % 10)

/-- Fuelled decimal rendering of a natural number (fuel is always enough). -/
def natCharsAux : Nat → Nat → List Char
  | 0, _ => []
  | fuel + 1, n =>
    if n < 10 then [digitChar10 n]
    else natCharsAux fuel (n / 10) ++ [digitChar10 n]

/-- Python `str(n)` for a natural number. -/
def natChars (n : Nat) : List Char := natCharsAux (n + 1) n

/-! ## `_board_shortlink` : the regex `/b/([A-Za-z0-9]+)/`

`re.search` tries each start position from the left; at a position the
pattern matches exactly when the text continues `/b/`, then a non-empty
maximal run of alphanumeric characters, then `/` (the character class
excludes `/`, so greedy matching cannot cross the terminating slash). -/

/-- One attempted match of `/b/([A-Za-z0-9]+)/` at the head of the list,
returning the captured group. -/
def tryBoardAt : List Char → Option (List Char)
  | a :: b :: c :: rest =>
    if a = '/' ∧ b = 'b' ∧ c = '/' then
      if rest.takeWhile isAlnumC = [] then none
      else if rest.get? (rest.takeWhile isAlnumC).length = some '/' then
        some (rest.takeWhile isAlnumC)
      else none
    else none
  | _ => none

/-- Model of `re.search`: leftmost match of `/b/([A-Za-z0-9]+)/`. -/
def scanBoard : List Char → Option (List Char)
  | [] => none
  | c :: cs =>
    match tryBoardAt (c :: cs) with
    | some seg => some seg
    | none => scanBoard cs

/-- Model of `_board_shortlink` (agentic.py:58-61): the captured group of the first
match of `/b/([A-Za-z0-9]+)/`, or the input unchanged when there is no
match. -/
def _board_shortlink (boardRef : List Char) : List Char :=
  match scanBoard boardRef with
  | some seg => seg
  | none => boardRef

/-- The input contains an occurrence of the pattern `/b/<alnum>+/`. -/
def hasBoardPattern (l : List Char) : Prop :=
  ∃ pre seg rest, l = pre ++ '/' :: 'b' :: '/' :: (seg ++ '/' :: rest) ∧
    seg ≠ [] ∧ ∀ c ∈ seg, isAlnumC c = true

/-! ## `_get_list_id` : two-pass list matching -/

/-- A board list as returned by the board API: `{id, name}`. -/
structure ListInfo where
  name : List Char
  id : List Char

/-- Model of `x.strip().lower()`, the normalization both sides of every comparison
in `_get_list_id` receive. -/
def normQ (s : List Char) : List Char := pyLower (pyStrip s)

/-- First pass of `_get_list_id` (agentic.py:74-76): first list whose
normalized name equals the normalized query. -/
def exactPass (q : List Char) : List ListInfo → Option ListInfo
  | [] => none
  | l :: ls => if normQ l.name = normQ q then some l else exactPass q ls

/-- Second pass of `_get_list_id` (agentic.py:78-80): first list whose
normalized name contains the normalized query as a substring. -/
def containsPass (q : List Char) : List ListInfo → Option ListInfo
  | [] => none
  | l :: ls =>
    if hasInfix (normQ q) (normQ l.name) then some l else containsPass q ls

/-- The error message of agentic.py:81. -/
def listNotFoundMsg (listName boardRef : List Char) : List Char :=
  "Lista '".data ++ listName ++ "' não encontrada no board ".data ++ boardRef

/-- Model of `_get_list_id` (agentic.py:63-81), with the board API's answer for the
board's lists passed in explicitly (the code fetches them with one read
call, in API order).  The `ValueError` of line 81 is the spec's
`NotFoundError`. -/
def _get_list_id (boardRef : List Char) (lists : List ListInfo)
    (listName : List Char) : Except (List Char) (List Char) :=
  match exactPass listName lists with
  | some l => .ok l.id
  | none =>
    match containsPass listName lists with
    | some l => .ok l.id
    | none => .error (listNotFoundMsg listName boardRef)

/-! ## `_to_rfc3339_from_text` : the date normalizer

Python `datetime` values are embedded as records of naturals; the
constructor validations of `datetime(...)` / `.replace(...)` (which raise
`ValueError` on out-of-range fields) become an `Except`.  `datetime.now()`
is an explicit parameter, so the normalizer is the pure function of the
input text and of the current local datetime that the code is. -/

/-- A naive Python `datetime` (microseconds are never non-zero here). -/
structure PyDateTime where
  year : Nat
  month : Nat
  day : Nat
  hour : Nat
  minute : Nat
  second : Nat
  deriving DecidableEq

/-- Gregorian leap-year rule used by `datetime`. -/
def isLeap (y : Nat) : Bool := y % 4 = 0 && (y % 100 ≠ 0 || y % 400 = 0)

/-- Length of a month in the proleptic Gregorian calendar. -/
def daysInMonth (y m : Nat) : Nat :=
  if m = 2 then (if isLeap y then 29 else 28)
  else if m = 4 ∨ m = 6 ∨ m = 9 ∨ m = 11 then 30 else 31

/-- The validating `datetime(y, m, d, hh, mi, ss)` constructor: Python
raises `ValueError` outside `MINYEAR..MAXYEAR` and the calendar/clock
ranges. -/
def mkPyDateTime (y m d hh mi ss : Nat) : Except (List Char) PyDateTime :=
  if ¬ (1 ≤ y ∧ y ≤ 9999) then .error "year is out of range".data
  else if ¬ (1 ≤ m ∧ m ≤ 12) then .error "month must be in 1..12".data
  else if ¬ (1 ≤ d ∧ d ≤ daysInMonth y m) then
    .error "day is out of range for month".data
  else if ¬ hh ≤ 23 then .error "hour must be in 0..23".data
  else if ¬ mi ≤ 59 then .error "minute must be in 0..59".data
  else if ¬ ss ≤ 59 then .error "second must be in 0..59".data
  else .ok ⟨y, m, d, hh, mi, ss⟩

/-- Model of `now + timedelta(days=1)` on a naive datetime: the next calendar day,
time of day unchanged. -/
def nextDay (dt : PyDateTime) : PyDateTime :=
  if dt.day < daysInMonth dt.year dt.month then { dt with day := dt.day + 1 }
  else if dt.month < 12 then { dt with month := dt.month + 1, day := 1 }
  else { dt with year := dt.year + 1, month := 1, day := 1 }

/-- Model of `dt.replace(hour=hh, minute=mi, second=0, microsecond=0)`: rebuilds the
datetime through the validating constructor. -/
def replaceHM (dt : PyDateTime) (hh mi : Nat) : Except (List Char) PyDateTime :=
  mkPyDateTime dt.year dt.month dt.day hh mi 0

/-- One attempted match of `([+-]\d{2}:\d{2})` at the head of the list. -/
def tryTZAt : List Char → Option (List Char)
  | s :: d1 :: d2 :: c :: d3 :: d4 :: _ =>
    if (s = '+' ∨ s = '-') ∧ isDigitC d1 ∧ isDigitC d2 ∧ c = ':' ∧
        isDigitC d3 ∧ isDigitC d4 then
      some [s, d1, d2, c, d3, d4]
    else none
  | _ => none

/-- Model of `re.search`: leftmost match of `([+-]\d{2}:\d{2})` (agentic.py:40). -/
def findTZ : List Char → Option (List Char)
  | [] => none
  | c :: cs =>
    match tryTZAt (c :: cs) with
    | some t => some t
    | none => findTZ cs

/-- Two-digit-hour attempt of `(\d{1,2}):(\d{2})` at the head. -/
def twoDigitHM : List Char → Option (Nat × Nat)
  | a :: b :: c :: d :: e :: _ =>
    if isDigitC a ∧ isDigitC b ∧ c = ':' ∧ isDigitC d ∧ isDigitC e then
      some (10 * digitVal a + digitVal b, 10 * digitVal d + digitVal e)
    else none
  | _ => none

/-- One-digit-hour attempt of `(\d{1,2}):(\d{2})` at the head. -/
def oneDigitHM : List Char → Option (Nat × Nat)
  | a :: b :: c :: d :: _ =>
    if isDigitC a ∧ b = ':' ∧ isDigitC c ∧ isDigitC d then
      some (digitVal a, 10 * digitVal c + digitVal d)
    else none
  | _ => none

/-- A match of `(\d{1,2}):(\d{2})` at the head: the greedy quantifier
tries two hour digits first, then backtracks to one. -/
def tryHMAt (l : List Char) : Option (Nat × Nat) :=
  match twoDigitHM l with
  | some r => some r
  | none => oneDigitHM l

/-- Model of `re.search`: leftmost match of `(\d{1,2}):(\d{2})` (agentic.py:43). -/
def findHM : List Char → Option (Nat × Nat)
  | [] => none
  | c :: cs =>
    match tryHMAt (c :: cs) with
    | some r => some r
    | none => findHM cs

/-- One attempted match of `(\d{4})-(\d{2})-(\d{2})` at the head. -/
def tryDateAt : List Char → Option (Nat × Nat × Nat)
  | a :: b :: c :: d :: h1 :: e :: f :: h2 :: g :: k :: _ =>
    if isDigitC a ∧ isDigitC b ∧ isDigitC c ∧ isDigitC d ∧ h1 = '-' ∧
        isDigitC e ∧ isDigitC f ∧ h2 = '-' ∧ isDigitC g ∧ isDigitC k then
      some (1000 * digitVal a + 100 * digitVal b + 10 * digitVal c + digitVal d,
            10 * digitVal e + digitVal f,
            10 * digitVal g + digitVal k)
    else none
  | _ => none

/-- Model of `re.search`: leftmost match of `(\d{4})-(\d{2})-(\d{2})`
(agentic.py:49-50; the two searches of those lines find the same leftmost
match). -/
def findDate : List Char → Option (Nat × Nat × Nat)
  | [] => none
  | c :: cs =>
    match tryDateAt (c :: cs) with
    | some r => some r
    | none => findDate cs

/-- The relative keyword of agentic.py:47. -/
def amanha : List Char := "amanhã".data

/-- Two-digit zero-padded rendering (`%m %d %H %M %S`; all fields < 100). -/
def pad2 (n : Nat) : List Char := [digitChar10 (n / 10), digitChar10 n]

/-- Four-digit zero-padded rendering (`%Y`; years ≤ 9999). -/
def pad4 (n : Nat) : List Char :=
  [digitChar10 (n / 1000), digitChar10 (n / 100), digitChar10 (n / 10),
   digitChar10 n]

/-- Model of `dt.strftime("%Y-%m-%d")`, the date part of the output. -/
def fmtDate (dt : PyDateTime) : List Char :=
  pad4 dt.year ++ '-' :: pad2 dt.month ++ '-' :: pad2 dt.day

/-- Model of `dt.strftime("%Y-%m-%dT%H:%M:%S")` (agentic.py:56). -/
def fmtDT (dt : PyDateTime) : List Char :=
  fmtDate dt ++ 'T' :: pad2 dt.hour ++ ':' :: pad2 dt.minute ++
    ':' :: pad2 dt.second

/-- Model of `_to_rfc3339_from_text` (agentic.py:27-56), with `datetime.now()`
passed in as `now`.  A raised `ValueError` becomes `Except.error`. -/
def _to_rfc3339_from_text (now : PyDateTime) (text : List Char) :
    Except (List Char) (List Char) :=
  let s := pyLower (pyStrip text)
  if s = [] then .error "Texto de data/hora vazio.".data
  else
    let tz := (findTZ s).getD "-03:00".data
    let hm := (findHM s).getD (9, 0)
    let dtE : Except (List Char) PyDateTime :=
      if hasInfix amanha s then replaceHM (nextDay now) hm.1 hm.2
      else
        match findDate s with
        | some (y, m, d) => mkPyDateTime y m d hm.1 hm.2 0
        | none => replaceHM now hm.1 hm.2
    dtE.map (fun dt => fmtDT dt ++ tz)

/-! ## Card and checklist mutations

The HTTP layer is abstracted into an `ApiCall → Except …` oracle
(`.error e` is a raising `raise_for_status()`, `.ok v` a success whose
body's `id` field is `v`).  The embedded tools additionally return the
exact ordered trace of calls they issued, so that "which requests were
made" is a provable statement. -/

/-- A write request to the board API, identified by its semantic
arguments (the constant key/token query parameters are elided). -/
inductive ApiCall where
  | createChecklist (cardId name : List Char)
  | addCheckItem (checklistId name : List Char)
  deriving DecidableEq

/-- Returns `true` on a success. -/
def isOkE {ε α : Type} : Except ε α → Bool
  | .ok _ => true
  | .error _ => false

/-- The items of `trello_add_checklist` that survive the per-item
`strip()`-and-skip of agentic.py:143-146, in original order. -/
def cleanItems (items : List (List Char)) : List (List Char) :=
  (items.map pyStrip).filter (fun t => !t.isEmpty)

/-- The loop of agentic.py:143-152: per item, trim; skip when empty
(issuing no call); otherwise issue one add-item call and stop at the
first failing one.  Returns the trace of calls issued and the outcome. -/
def addItemsLoop (respond : ApiCall → Except (List Char) (List Char))
    (cid : List Char) : List (List Char) → List ApiCall × Except (List Char) Unit
  | [] => ([], .ok ())
  | it :: rest =>
    let t := pyStrip it
    if t.isEmpty then addItemsLoop respond cid rest
    else
      match respond (.addCheckItem cid t) with
      | .error e => ([.addCheckItem cid t], .error e)
      | .ok _ =>
        let r := addItemsLoop respond cid rest
        (.addCheckItem cid t :: r.1, r.2)

/-- The confirmation string of agentic.py:154 — note it interpolates
`len(items)`, the raw length of the input list. -/
def confirmMsg (checklistName : List Char) (items : List (List Char)) :
    List Char :=
  "Checklist '".data ++ checklistName ++ "' criado com ".data ++
    natChars items.length ++ " itens".data

/-- Model of `trello_add_checklist` (agentic.py:129-154): one create-checklist
call, then the per-item loop, then the confirmation message.  Returns the
trace of calls issued and the outcome. -/
def trello_add_checklist (respond : ApiCall → Except (List Char) (List Char))
    (cardId checklistName : List Char) (items : List (List Char)) :
    List ApiCall × Except (List Char) (List Char) :=
  match respond (.createChecklist cardId checklistName) with
  | .error e => ([.createChecklist cardId checklistName], .error e)
  | .ok cid =>
    let r := addItemsLoop respond cid items
    (.createChecklist cardId checklistName :: r.1,
     match r.2 with
     | .error e => .error e
     | .ok _ => .ok (confirmMsg checklistName items))

/-- The query parameters `trello_create_card` (agentic.py:104-112) sends:
the base dict, with `due` added afterwards only when `if due:` is truthy
(`due` neither `None` nor empty). -/
def trello_create_card_params (key token listId name desc : List Char)
    (due : Option (List Char)) : List (List Char × List Char) :=
  let params := [("key".data, key), ("token".data, token),
                 ("idList".data, listId), ("name".data, name),
                 ("desc".data, desc)]
  match due with
  | none => params
  | some d => if d.isEmpty then params else params ++ [("due".data, d)]

/-! ## Demonstration oracles for concrete instances -/

/-- An oracle on which every call succeeds (create answers with id
`cid1`). -/
def okRespond : ApiCall → Except (List Char) (List Char) :=
  fun _ => .ok "cid1".data

/-- An oracle that fails exactly on the add-item call for `boom`. -/
def failRespond : ApiCall → Except (List Char) (List Char) := fun c =>
  match c with
  | .addCheckItem _ n =>
    if n = "boom".data then .error "HTTP 400".data else .ok "ok1".data
  | _ => .ok "cid1".data

/-! ## Helper lemmas about the add-item loop -/

/-- When every add-item call succeeds, the loop issues exactly one call
per trimmed non-blank item, in original order, and succeeds. -/
theorem addItemsLoop_all_ok (respond : ApiCall → Except (List Char) (List Char))
    (cid : List Char) (items : List (List Char))
    (h : ∀ t, isOkE (respond (.addCheckItem cid t)) = true) :
    addItemsLoop respond cid items =
      ((cleanItems items).map (fun t => ApiCall.addCheckItem cid t), .ok ()) := by
  induction items with
  | nil => rfl
  | cons it its ih =>
    by_cases hempty : (pyStrip it).isEmpty
    · have hc : cleanItems (it :: its) = cleanItems its := by
        simp [cleanItems, List.filter_cons, hempty]
      rw [hc]
      simpa [addItemsLoop, hempty] using ih
    · have hok := h (pyStrip it)
      have hc : cleanItems (it :: its) = pyStrip it :: cleanItems its := by
        simp [cleanItems, List.filter_cons, hempty]
      cases hresp : respond (.addCheckItem cid (pyStrip it)) with
      | error e => rw [hresp] at hok; simp [isOkE] at hok
      | ok v =>
        rw [hc]
        simp [addItemsLoop, hempty, hresp, ih]

/-- When every item is blank after trimming, the loop issues no call at
all and succeeds. -/
theorem addItemsLoop_blank (respond : ApiCall → Except (List Char) (List Char))
    (cid : List Char) (items : List (List Char))
    (h : cleanItems items = []) :
    addItemsLoop respond cid items = ([], .ok ()) := by
  induction items with
  | nil => rfl
  | cons it its ih =>
    by_cases hempty : (pyStrip it).isEmpty
    · have hc : cleanItems (it :: its) = cleanItems its := by
        simp [cleanItems, List.filter_cons, hempty]
      rw [hc] at h
      simpa [addItemsLoop, hempty] using ih h
    · have hc : cleanItems (it :: its) = pyStrip it :: cleanItems its := by
        simp [cleanItems, List.filter_cons, hempty]
      rw [hc] at h
      exact absurd h (by simp)

/-- When the add-item calls succeed for a first block `good` of the
trimmed non-blank items and fail on the next one, the loop issues exactly
the calls for `good` and the failing attempt, then stops with that
error. -/
theorem addItemsLoop_fail_at (respond : ApiCall → Except (List Char) (List Char))
    (cid : List Char) (items good : List (List Char)) (bad e : List Char)
    (rest : List (List Char))
    (hsplit : cleanItems items = good ++ bad :: rest)
    (hgood : ∀ t ∈ good, isOkE (respond (.addCheckItem cid t)) = true)
    (hbad : respond (.addCheckItem cid bad) = .error e) :
    addItemsLoop respond cid items =
      (good.map (fun t => ApiCall.addCheckItem cid t) ++
        [ApiCall.addCheckItem cid bad], .error e) := by
  induction items generalizing good with
  | nil =>
    have : ([] : List (List Char)) = good ++ bad :: rest := hsplit
    exact absurd this.symm (by simp)
  | cons it its ih =>
    by_cases hempty : (pyStrip it).isEmpty
    · have hc : cleanItems (it :: its) = cleanItems its := by
        simp [cleanItems, List.filter_cons, hempty]
      rw [hc] at hsplit
      simpa [addItemsLoop, hempty] using ih good hsplit hgood
    · have hc : cleanItems (it :: its) = pyStrip it :: cleanItems its := by
        simp [cleanItems, List.filter_cons, hempty]
      rw [hc] at hsplit
      cases good with
      | nil =>
        obtain ⟨h1, h2⟩ : pyStrip it = bad ∧ cleanItems its = rest := by
          simpa using hsplit
        subst h1
        simp [addItemsLoop, hempty, hbad]
      | cons g gs =>
        obtain ⟨h1, h2⟩ : pyStrip it = g ∧ cleanItems its = gs ++ bad :: rest := by
          simpa using hsplit
        subst h1
        have hokg := hgood (pyStrip it) (by simp)
        cases hresp : respond (.addCheckItem cid (pyStrip it)) with
        | error e2 => rw [hresp] at hokg; simp [isOkE] at hokg
        | ok v =>
          simp [addItemsLoop, hempty, hresp,
            ih gs h2 (fun t ht => hgood t (by simp [ht]))]

/-! ## Claim theorems -/

/-- C6. For every call to `addChecklist`, each item is trimmed and, if
empty after trimming, skipped with no add-item call made, while non-blank
items are each added with one call in their original relative order: the
trace of calls is the create-checklist call followed by exactly one
add-item call per trimmed non-blank item, in order, and nothing else. -/
theorem c6_items_trimmed_and_ordered
    (respond : ApiCall → Except (List Char) (List Char))
    (cardId checklistName cid : List Char) (items : List (List Char))
    (hcreate : respond (.createChecklist cardId checklistName) = .ok cid)
    (hitems : ∀ t, isOkE (respond (.addCheckItem cid t)) = true) :
    trello_add_checklist respond cardId checklistName items =
      (ApiCall.createChecklist cardId checklistName ::
        (cleanItems items).map (fun t => ApiCall.addCheckItem cid t),
       .ok (confirmMsg checklistName items)) := by
  simp [trello_add_checklist, hcreate,
    addItemsLoop_all_ok respond cid items hitems]

/-- C6 witness. With items `["", "  ", "Write tests"]` exactly one
item, `"Write tests"`, is added (one add-item call after the create
call). -/
theorem c6_witness :
    trello_add_checklist okRespond "card1".data "Tarefas".data
        ["".data, "  ".data, "Write tests".data] =
      ([ApiCall.createChecklist "card1".data "Tarefas".data,
        ApiCall.addCheckItem "cid1".data "Write tests".data],
       .ok "Checklist 'Tarefas' criado com 3 itens".data) :=
  (c6_items_trimmed_and_ordered okRespond "card1".data "Tarefas".data
      "cid1".data ["".data, "  ".data, "Write tests".data]
      rfl (fun _ => rfl)).trans (by rfl)

/-- C7. When the add-item call for some item fails after the calls
for a first block `good` of the trimmed non-blank items succeeded, the
operation stops with that error: the trace is exactly the create call,
one call per already-added item, and the failing attempt — the error of
the failing attempt is surfaced, no further item is attempted, and no
call that could undo the `good.length` already-added items exists in the
trace (indeed `ApiCall` has no delete operation at all). -/
theorem c7_no_rollback_on_partial_failure
    (respond : ApiCall → Except (List Char) (List Char))
    (cardId checklistName cid bad e : List Char)
    (items good : List (List Char)) (rest : List (List Char))
    (hcreate : respond (.createChecklist cardId checklistName) = .ok cid)
    (hsplit : cleanItems items = good ++ bad :: rest)
    (hgood : ∀ t ∈ good, isOkE (respond (.addCheckItem cid t)) = true)
    (hbad : respond (.addCheckItem cid bad) = .error e) :
    trello_add_checklist respond cardId checklistName items =
      (ApiCall.createChecklist cardId checklistName ::
        (good.map (fun t => ApiCall.addCheckItem cid t) ++
          [ApiCall.addCheckItem cid bad]),
       .error e) := by
  simp [trello_add_checklist, hcreate,
    addItemsLoop_fail_at respond cid items good bad e rest hsplit hgood hbad]

/-- C7 witness. Against an oracle failing on item `boom`, the run with
items `["Write tests", "boom", "More"]` issues the create call, the one
successful add, and the failing attempt, surfaces `HTTP 400`, and never
attempts `More`. -/
theorem c7_witness :
    trello_add_checklist failRespond "card1".data "Tarefas".data
        ["Write tests".data, "boom".data, "More".data] =
      ([ApiCall.createChecklist "card1".data "Tarefas".data,
        ApiCall.addCheckItem "cid1".data "Write tests".data,
        ApiCall.addCheckItem "cid1".data "boom".data],
       .error "HTTP 400".data) :=
  (c7_no_rollback_on_partial_failure failRespond "card1".data "Tarefas".data
      "cid1".data "boom".data "HTTP 400".data
      ["Write tests".data, "boom".data, "More".data]
      ["Write tests".data] ["More".data]
      rfl (by rfl) (by decide) rfl).trans (by rfl)

/-- C1 counterexample. With items `["", "Write tests"]` the run adds
exactly one item, yet the returned confirmation says `2 itens` — the raw
length of the input list — and that string differs from the one carrying
the count actually added, so the confirmation does not carry the count of
items actually added. -/
theorem c1_counterexample_raw_length :
    (trello_add_checklist okRespond "card1".data "Tarefas".data
        ["".data, "Write tests".data]).1 =
      [ApiCall.createChecklist "card1".data "Tarefas".data,
       ApiCall.addCheckItem "cid1".data "Write tests".data] ∧
    (trello_add_checklist okRespond "card1".data "Tarefas".data
        ["".data, "Write tests".data]).2 =
      .ok "Checklist 'Tarefas' criado com 2 itens".data ∧
    ("Checklist 'Tarefas' criado com 2 itens".data : List Char) ≠
      "Checklist 'Tarefas' criado com 1 itens".data := by
  refine ⟨rfl, rfl, ?_⟩
  decide

/-- C1 amended. For every call to `addChecklist` that succeeds, the
returned confirmation interpolates the raw length of the input items
list (`len(items)`), even when blank items were skipped — not the count
of items actually added. -/
theorem c1_amended_confirmation_raw_length
    (respond : ApiCall → Except (List Char) (List Char))
    (cardId checklistName cid : List Char) (items : List (List Char))
    (hcreate : respond (.createChecklist cardId checklistName) = .ok cid)
    (hitems : ∀ t, isOkE (respond (.addCheckItem cid t)) = true) :
    (trello_add_checklist respond cardId checklistName items).2 =
      .ok ("Checklist '".data ++ checklistName ++ "' criado com ".data ++
        natChars items.length ++ " itens".data) := by
  simp [trello_add_checklist, hcreate,
    addItemsLoop_all_ok respond cid items hitems, confirmMsg]

/-- C1 amended witness. The confirmation for
`["", "Write tests"]` interpolates the raw length `2`. -/
theorem c1_amended_witness :
    (trello_add_checklist okRespond "card1".data "Tarefas".data
        ["".data, "Write tests".data]).2 =
      .ok ("Checklist '".data ++ "Tarefas".data ++ "' criado com ".data ++
        natChars 2 ++ " itens".data) :=
  c1_amended_confirmation_raw_length okRespond "card1".data "Tarefas".data
    "cid1".data ["".data, "Write tests".data] rfl (fun _ => rfl)

/-- C10 counterexample. With the all-blank items list `["  "]` the
empty checklist is created (one create call, no add-item call) and the
operation succeeds — but the confirmation reports `1 itens`, the raw
input length, not a zero relevant-item count. -/
theorem c10_counterexample_all_blank :
    (trello_add_checklist okRespond "card1".data "Tarefas".data
        ["  ".data]).1 =
      [ApiCall.createChecklist "card1".data "Tarefas".data] ∧
    (trello_add_checklist okRespond "card1".data "Tarefas".data
        ["  ".data]).2 =
      .ok "Checklist 'Tarefas' criado com 1 itens".data ∧
    ("Checklist 'Tarefas' criado com 1 itens".data : List Char) ≠
      "Checklist 'Tarefas' criado com 0 itens".data := by
  refine ⟨rfl, rfl, ?_⟩
  decide

/-- C10 amended. For every call to `addChecklist` whose items are all
blank after trimming (in particular an empty list), the empty checklist
is still created under the card via exactly one create-checklist call,
no add-item call is issued, and the operation succeeds — the confirmation
reporting the raw input length (which is `0` exactly when the input list
itself is empty). -/
theorem c10_amended_empty_checklist_created
    (respond : ApiCall → Except (List Char) (List Char))
    (cardId checklistName cid : List Char) (items : List (List Char))
    (hcreate : respond (.createChecklist cardId checklistName) = .ok cid)
    (hclean : cleanItems items = []) :
    trello_add_checklist respond cardId checklistName items =
      ([ApiCall.createChecklist cardId checklistName],
       .ok ("Checklist '".data ++ checklistName ++ "' criado com ".data ++
         natChars items.length ++ " itens".data)) := by
  simp [trello_add_checklist, hcreate,
    addItemsLoop_blank respond cid items hclean, confirmMsg]

/-- C10 amended witness. The run on the empty items list issues only
the create call and reports `0 itens`. -/
theorem c10_amended_witness :
    trello_add_checklist okRespond "card1".data "Tarefas".data [] =
      ([ApiCall.createChecklist "card1".data "Tarefas".data],
       .ok ("Checklist '".data ++ "Tarefas".data ++ "' criado com ".data ++
         natChars 0 ++ " itens".data)) :=
  c10_amended_empty_checklist_created okRespond "card1".data "Tarefas".data
    "cid1".data [] rfl rfl

/-- C8. The request `createCard` sends contains no `due` key at all
when the `due` argument is absent, and when a (non-empty, as a
`CanonicalTimestamp` is) `due` is supplied, the request is the base one
extended with exactly the pair `("due", due)`, the value passed through
unchanged. -/
theorem c8_due_field_omitted_or_passed (key token listId name desc : List Char) :
    (∀ p ∈ trello_create_card_params key token listId name desc none,
       p.1 ≠ "due".data) ∧
    (∀ d : List Char, d ≠ [] →
       trello_create_card_params key token listId name desc (some d) =
         trello_create_card_params key token listId name desc none ++
           [("due".data, d)]) := by
  constructor
  · intro p hp
    simp [trello_create_card_params] at hp
    rcases hp with rfl | rfl | rfl | rfl | rfl <;> simp
  · intro d hd
    cases d with
    | nil => exact absurd rfl hd
    | cons c cs => rfl

/-- C8 witness. A concrete supplied `due` is appended unchanged as the
`due` field. -/
theorem c8_witness :
    trello_create_card_params "K".data "T".data "L".data "N".data "D".data
        (some "2026-01-01T09:00:00-03:00".data) =
      trello_create_card_params "K".data "T".data "L".data "N".data "D".data
          none ++ [("due".data, "2026-01-01T09:00:00-03:00".data)] :=
  (c8_due_field_omitted_or_passed "K".data "T".data "L".data "N".data
      "D".data).2 "2026-01-01T09:00:00-03:00".data (by decide)

/-! ## Board-reference normalization (C9) -/

/-- The `takeWhile` of a fully satisfying block followed by a failing element
recovers exactly the block. -/
theorem takeWhile_block {p : Char → Bool} (xs : List Char) (y : Char)
    (ys : List Char) (hxs : ∀ c ∈ xs, p c = true) (hy : p y = false) :
    (xs ++ y :: ys).takeWhile p = xs := by
  induction xs with
  | nil => simp [List.takeWhile_cons, hy]
  | cons x xs ih =>
    have hx := hxs x (by simp)
    simp [List.takeWhile_cons, hx, ih (fun c hc => hxs c (by simp [hc]))]

/-- Index `xs.length` of `xs ++ y :: ys` holds `y`. -/
theorem get?_block (xs : List Char) (y : Char) (ys : List Char) :
    (xs ++ y :: ys).get? xs.length = some y := by
  induction xs with
  | nil => rfl
  | cons x xs ih => simpa using ih

/-- A successful attempt at a position where the text continues
`/b/<short>/…` with `short` a non-empty alphanumeric run captures exactly
`short`. -/
theorem tryBoardAt_match (seg rest : List Char) (hne : seg ≠ [])
    (hal : ∀ c ∈ seg, isAlnumC c = true) :
    tryBoardAt ('/' :: 'b' :: '/' :: (seg ++ '/' :: rest)) = some seg := by
  have htw : (seg ++ '/' :: rest).takeWhile isAlnumC = seg :=
    takeWhile_block seg '/' rest hal (by decide)
  rw [tryBoardAt, if_pos ⟨rfl, rfl, rfl⟩, htw, if_neg hne,
    if_pos (get?_block seg '/' rest)]

/-- A failed attempt advances the scan by one character. -/
theorem scanBoard_cons_none {c : Char} {cs : List Char}
    (h : tryBoardAt (c :: cs) = none) : scanBoard (c :: cs) = scanBoard cs := by
  simp [scanBoard, h]

/-- An attempt fails when the text does not continue `/b/`. -/
theorem tryBoardAt_not_bslash (a b c : Char) (rest : List Char)
    (h : ¬(a = '/' ∧ b = 'b' ∧ c = '/')) :
    tryBoardAt (a :: b :: c :: rest) = none := by
  simp [tryBoardAt, h]

/-- A successful attempt exposes the matched pattern at the head. -/
theorem tryBoardAt_some_shape (L seg : List Char) (h : tryBoardAt L = some seg) :
    ∃ rest, L = '/' :: 'b' :: '/' :: (seg ++ '/' :: rest) ∧ seg ≠ [] ∧
      ∀ c ∈ seg, isAlnumC c = true := by
  match L with
  | [] => exact absurd h (by simp [tryBoardAt])
  | [a] => exact absurd h (by simp [tryBoardAt])
  | [a, b] => exact absurd h (by simp [tryBoardAt])
  | a :: b :: c :: r =>
    rw [tryBoardAt] at h
    by_cases h1 : a = '/' ∧ b = 'b' ∧ c = '/'
    · obtain ⟨rfl, rfl, rfl⟩ := h1
      rw [if_pos ⟨rfl, rfl, rfl⟩] at h
      by_cases h2 : r.takeWhile isAlnumC = []
      · rw [if_pos h2] at h
        exact absurd h (by simp)
      · rw [if_neg h2] at h
        by_cases h3 : r.get? (r.takeWhile isAlnumC).length = some '/'
        · rw [if_pos h3] at h
          obtain rfl : r.takeWhile isAlnumC = seg := by simpa using h
          cases hd : r.dropWhile isAlnumC with
          | nil =>
            have hr : r.takeWhile isAlnumC = r := by
              conv_rhs => rw [← List.takeWhile_append_dropWhile isAlnumC r]
              rw [hd, List.append_nil]
            rw [hr, List.get?_eq_none.mpr (le_refl _)] at h3
            exact absurd h3 (by simp)
          | cons d tail =>
            have hr : r = r.takeWhile isAlnumC ++ d :: tail := by
              conv_lhs => rw [← List.takeWhile_append_dropWhile isAlnumC r]
              rw [hd]
            have hget := get?_block (r.takeWhile isAlnumC) d tail
            rw [← hr] at hget
            obtain rfl : d = '/' := Option.some_inj.mp (hget.symm.trans h3)
            refine ⟨tail, ?_, h2, fun c hc => List.mem_takeWhile_imp hc⟩
            conv_lhs => rw [hr]
        · rw [if_neg h3] at h
          exact absurd h (by simp)
    · rw [if_neg h1] at h
      exact absurd h (by simp)

/-- A successful scan means the pattern occurs in the input. -/
theorem scanBoard_some_pattern (l seg : List Char) (h : scanBoard l = some seg) :
    hasBoardPattern l := by
  induction l with
  | nil => exact absurd h (by simp [scanBoard])
  | cons c cs ih =>
    rw [scanBoard] at h
    cases htry : tryBoardAt (c :: cs) with
    | some s =>
      rw [htry] at h
      obtain ⟨rest, heq, hne, hal⟩ := tryBoardAt_some_shape _ _ htry
      exact ⟨[], s, rest, heq, hne, hal⟩
    | none =>
      rw [htry] at h
      obtain ⟨pre, s, rest, heq, hne, hal⟩ := ih h
      exact ⟨c :: pre, s, rest, by simp [heq], hne, hal⟩

/-- C9. A full board URL (`https://trello.com/b/<short>/<name>`, the
form of the docstring, `<short>` a non-empty alphanumeric token)
normalizes to the path segment between `/b/` and the next `/`; a board
reference containing no `/b/<alnum>/` pattern at all — in particular a
bare short identifier — is returned unchanged. -/
theorem c9_board_shortlink :
    (∀ short boardName : List Char, short ≠ [] →
        (∀ c ∈ short, isAlnumC c = true) →
        _board_shortlink
            ("https://trello.com/b/".data ++ short ++ '/' :: boardName) =
          short) ∧
    (∀ boardRef : List Char, ¬ hasBoardPattern boardRef →
        _board_shortlink boardRef = boardRef) := by
  constructor
  · intro short boardName hne hal
    have hurl : "https://trello.com/b/".data ++ short ++ '/' :: boardName =
        'h' :: 't' :: 't' :: 'p' :: 's' :: ':' :: '/' :: '/' :: 't' :: 'r' ::
        'e' :: 'l' :: 'l' :: 'o' :: '.' :: 'c' :: 'o' :: 'm' :: '/' :: 'b' ::
        '/' :: (short ++ '/' :: boardName) := by
      simp
    rw [hurl]
    have hscan : scanBoard ('h' :: 't' :: 't' :: 'p' :: 's' :: ':' :: '/' ::
        '/' :: 't' :: 'r' :: 'e' :: 'l' :: 'l' :: 'o' :: '.' :: 'c' :: 'o' ::
        'm' :: '/' :: 'b' :: '/' :: (short ++ '/' :: boardName)) = some short := by
      iterate 18 rw [scanBoard_cons_none (tryBoardAt_not_bslash _ _ _ _ (by decide))]
      rw [scanBoard, tryBoardAt_match short boardName hne hal]
    simp [_board_shortlink, hscan]
  · intro boardRef hnp
    cases hscan : scanBoard boardRef with
    | none => simp [_board_shortlink, hscan]
    | some seg => exact absurd (scanBoard_some_pattern _ _ hscan) hnp

/-- C9 witness. The URL form extracts the short identifier, and a bare
short identifier (which cannot contain the `/b/…/` pattern, having no
slash) passes through unchanged. -/
theorem c9_witness :
    _board_shortlink "https://trello.com/b/AbC123/my-board".data =
      "AbC123".data ∧
    _board_shortlink "AbC123".data = "AbC123".data := by
  constructor
  · have h := c9_board_shortlink.1 "AbC123".data "my-board".data
      (by decide) (by decide)
    have harg : "https://trello.com/b/".data ++ "AbC123".data ++
        '/' :: "my-board".data = "https://trello.com/b/AbC123/my-board".data := by
      decide
    rw [harg] at h
    exact h
  · refine c9_board_shortlink.2 "AbC123".data ?_
    rintro ⟨pre, seg, rest, heq, -, -⟩
    have : '/' ∈ "AbC123".data := by
      rw [heq]; simp
    exact absurd this (by decide)

/-! ## List resolution (C5) -/

/-- The exact pass stops at the first (in list order) exact match. -/
theorem exactPass_first_hit (q : List Char) (lists : List ListInfo) (i : Nat)
    (hi : i < lists.length)
    (hmatch : normQ (lists.get ⟨i, hi⟩).name = normQ q)
    (hbefore : ∀ j (hj : j < i),
      normQ (lists.get ⟨j, Nat.lt_trans hj hi⟩).name ≠ normQ q) :
    exactPass q lists = some (lists.get ⟨i, hi⟩) := by
  induction lists generalizing i with
  | nil => exact absurd hi (by simp)
  | cons l ls ih =>
    cases i with
    | zero =>
      rw [exactPass, if_pos (show normQ l.name = normQ q from hmatch)]
      rfl
    | succ i =>
      have h0 : normQ l.name ≠ normQ q := hbefore 0 (Nat.succ_pos i)
      rw [exactPass, if_neg h0]
      exact ih i (Nat.lt_of_succ_lt_succ hi) hmatch
        (fun j hj => hbefore (j + 1) (Nat.succ_lt_succ hj))

/-- The exact pass finds nothing when no list matches exactly. -/
theorem exactPass_none (q : List Char) (lists : List ListInfo)
    (h : ∀ l ∈ lists, normQ l.name ≠ normQ q) : exactPass q lists = none := by
  induction lists with
  | nil => rfl
  | cons l ls ih =>
    rw [exactPass, if_neg (h l (by simp))]
    exact ih (fun x hx => h x (by simp [hx]))

/-- The substring pass stops at the first (in list order) containment
match. -/
theorem containsPass_first_hit (q : List Char) (lists : List ListInfo) (i : Nat)
    (hi : i < lists.length)
    (hmatch : hasInfix (normQ q) (normQ (lists.get ⟨i, hi⟩).name) = true)
    (hbefore : ∀ j (hj : j < i),
      hasInfix (normQ q) (normQ (lists.get ⟨j, Nat.lt_trans hj hi⟩).name) = false) :
    containsPass q lists = some (lists.get ⟨i, hi⟩) := by
  induction lists generalizing i with
  | nil => exact absurd hi (by simp)
  | cons l ls ih =>
    cases i with
    | zero =>
      rw [containsPass,
        if_pos (show hasInfix (normQ q) (normQ l.name) = true from hmatch)]
      rfl
    | succ i =>
      have h0 : hasInfix (normQ q) (normQ l.name) = false :=
        hbefore 0 (Nat.succ_pos i)
      rw [containsPass, if_neg (by simp [h0])]
      exact ih i (Nat.lt_of_succ_lt_succ hi) hmatch
        (fun j hj => hbefore (j + 1) (Nat.succ_lt_succ hj))

/-- The substring pass finds nothing when no list name contains the
query. -/
theorem containsPass_none (q : List Char) (lists : List ListInfo)
    (h : ∀ l ∈ lists, hasInfix (normQ q) (normQ l.name) = false) :
    containsPass q lists = none := by
  induction lists with
  | nil => rfl
  | cons l ls ih =>
    rw [containsPass, if_neg (by simp [h l (by simp)])]
    exact ih (fun x hx => h x (by simp [hx]))

/-- C5. `resolve` returns the id of the first list (in API return
order) whose trimmed name equals the trimmed query case-insensitively;
when no exact match exists, the id of the first list whose trimmed
lower-cased name contains the trimmed lower-cased query as a substring;
and when neither pass matches any list, the `NotFoundError`
(`ValueError`, agentic.py:81). -/
theorem c5_resolve_first_hit (boardRef : List Char) (lists : List ListInfo)
    (q : List Char) :
    (∀ i (hi : i < lists.length),
        normQ (lists.get ⟨i, hi⟩).name = normQ q →
        (∀ j (hj : j < i),
          normQ (lists.get ⟨j, Nat.lt_trans hj hi⟩).name ≠ normQ q) →
        _get_list_id boardRef lists q = .ok (lists.get ⟨i, hi⟩).id) ∧
    ((∀ l ∈ lists, normQ l.name ≠ normQ q) →
      ∀ i (hi : i < lists.length),
        hasInfix (normQ q) (normQ (lists.get ⟨i, hi⟩).name) = true →
        (∀ j (hj : j < i),
          hasInfix (normQ q) (normQ (lists.get ⟨j, Nat.lt_trans hj hi⟩).name)
            = false) →
        _get_list_id boardRef lists q = .ok (lists.get ⟨i, hi⟩).id) ∧
    ((∀ l ∈ lists, normQ l.name ≠ normQ q ∧
        hasInfix (normQ q) (normQ l.name) = false) →
      _get_list_id boardRef lists q = .error (listNotFoundMsg q boardRef)) := by
  refine ⟨?_, ?_, ?_⟩
  · intro i hi hmatch hbefore
    rw [_get_list_id, exactPass_first_hit q lists i hi hmatch hbefore]
  · intro hnoexact i hi hmatch hbefore
    rw [_get_list_id, exactPass_none q lists hnoexact,
      containsPass_first_hit q lists i hi hmatch hbefore]
  · intro hnone
    rw [_get_list_id, exactPass_none q lists (fun l hl => (hnone l hl).1),
      containsPass_none q lists (fun l hl => (hnone l hl).2)]

/-- C5 witness. The spec's own example: lists `["A Fazer", "Fazendo"]`
and query `"Fazer"` have no exact match, so the substring pass resolves
to `"A Fazer"`, the first list whose name contains `"fazer"`. -/
theorem c5_witness :
    _get_list_id "myboard".data
        [⟨"A Fazer".data, "id1".data⟩, ⟨"Fazendo".data, "id2".data⟩]
        "Fazer".data = .ok "id1".data :=
  (c5_resolve_first_hit "myboard".data
      [⟨"A Fazer".data, "id1".data⟩, ⟨"Fazendo".data, "id2".data⟩]
      "Fazer".data).2.1 (by decide) 0 (by decide) (by decide)
    (fun j hj => absurd hj (Nat.not_lt_zero j))

/-! ## The date normalizer (C2, C3, C4) -/

/-- The validating constructor succeeds only with exactly its argument
fields. -/
theorem mkPyDateTime_ok_eq {y m d hh mi ss : Nat} {dt : PyDateTime}
    (h : mkPyDateTime y m d hh mi ss = .ok dt) : dt = ⟨y, m, d, hh, mi, ss⟩ := by
  unfold mkPyDateTime at h
  split_ifs at h
  simp_all

/-- The date part of the output is always ten characters long. -/
theorem fmtDate_length (dt : PyDateTime) : (fmtDate dt).length = 10 := by
  simp [fmtDate, pad4, pad2]

/-- Inversion of a successful run of the normalizer: the result is a
formatted datetime followed by the extracted-or-defaulted offset, whose
time of day is the extracted-or-defaulted hour/minute with seconds zero,
and whose date is tomorrow's whenever the keyword `amanhã` occurs. -/
theorem to_rfc3339_ok_shape (now : PyDateTime) (text res : List Char)
    (h : _to_rfc3339_from_text now text = .ok res) :
    ∃ dt : PyDateTime,
      res = fmtDT dt ++ (findTZ (pyLower (pyStrip text))).getD "-03:00".data ∧
      dt.hour = ((findHM (pyLower (pyStrip text))).getD (9, 0)).1 ∧
      dt.minute = ((findHM (pyLower (pyStrip text))).getD (9, 0)).2 ∧
      dt.second = 0 ∧
      (hasInfix amanha (pyLower (pyStrip text)) = true →
        dt.year = (nextDay now).year ∧ dt.month = (nextDay now).month ∧
          dt.day = (nextDay now).day) := by
  simp only [_to_rfc3339_from_text] at h
  by_cases hnil : pyLower (pyStrip text) = []
  · rw [if_pos hnil] at h
    exact absurd h (by simp)
  · rw [if_neg hnil] at h
    by_cases hA : hasInfix amanha (pyLower (pyStrip text)) = true
    · rw [if_pos hA] at h
      cases hrep : replaceHM (nextDay now)
          ((findHM (pyLower (pyStrip text))).getD (9, 0)).1
          ((findHM (pyLower (pyStrip text))).getD (9, 0)).2 with
      | error e => rw [hrep] at h; exact absurd h (by simp [Except.map])
      | ok dt =>
        rw [hrep] at h
        have hres : res = fmtDT dt ++
            (findTZ (pyLower (pyStrip text))).getD "-03:00".data := by
          simpa [Except.map] using h.symm
        have hdt : dt = ⟨(nextDay now).year, (nextDay now).month,
            (nextDay now).day,
            ((findHM (pyLower (pyStrip text))).getD (9, 0)).1,
            ((findHM (pyLower (pyStrip text))).getD (9, 0)).2, 0⟩ :=
          mkPyDateTime_ok_eq hrep
        exact ⟨dt, hres, by rw [hdt], by rw [hdt], by rw [hdt],
          fun _ => by rw [hdt]; exact ⟨rfl, rfl, rfl⟩⟩
    · rw [if_neg hA] at h
      cases hfd : findDate (pyLower (pyStrip text)) with
      | some ymd =>
        obtain ⟨y, m, d⟩ := ymd
        rw [hfd] at h
        simp only [] at h
        cases hmk : mkPyDateTime y m d
            ((findHM (pyLower (pyStrip text))).getD (9, 0)).1
            ((findHM (pyLower (pyStrip text))).getD (9, 0)).2 0 with
        | error e => rw [hmk] at h; exact absurd h (by simp [Except.map])
        | ok dt =>
          rw [hmk] at h
          have hres : res = fmtDT dt ++
              (findTZ (pyLower (pyStrip text))).getD "-03:00".data := by
            simpa [Except.map] using h.symm
          have hdt := mkPyDateTime_ok_eq hmk
          exact ⟨dt, hres, by rw [hdt], by rw [hdt], by rw [hdt],
            fun hc => absurd hc hA⟩
      | none =>
        rw [hfd] at h
        simp only [] at h
        cases hrep : replaceHM now
            ((findHM (pyLower (pyStrip text))).getD (9, 0)).1
            ((findHM (pyLower (pyStrip text))).getD (9, 0)).2 with
        | error e => rw [hrep] at h; exact absurd h (by simp [Except.map])
        | ok dt =>
          rw [hrep] at h
          have hres : res = fmtDT dt ++
              (findTZ (pyLower (pyStrip text))).getD "-03:00".data := by
            simpa [Except.map] using h.symm
          have hdt := mkPyDateTime_ok_eq hrep
          exact ⟨dt, hres, by rw [hdt], by rw [hdt], by rw [hdt],
            fun hc => absurd hc hA⟩

/-- C2. For every input whose (lower-cased, trimmed) text contains the
keyword `amanhã`, the date part of any successfully returned timestamp is
`today + 1` calendar day — whatever else the text contains.  The
hypotheses say nothing about `findDate`, so the conclusion holds in
particular when an explicit `YYYY-MM-DD` substring is also present: the
explicit-date rule is never evaluated in that case. -/
theorem c2_amanha_precedence (now : PyDateTime) (text res : List Char)
    (hA : hasInfix amanha (pyLower (pyStrip text)) = true)
    (hok : _to_rfc3339_from_text now text = .ok res) :
    res.take 10 = fmtDate (nextDay now) := by
  obtain ⟨dt, hres, -, -, -, hymd⟩ := to_rfc3339_ok_shape now text res hok
  obtain ⟨hy, hmo, hd⟩ := hymd hA
  have hdate : fmtDate dt = fmtDate (nextDay now) := by
    simp [fmtDate, hy, hmo, hd]
  have hsplit : res = fmtDate (nextDay now) ++
      ('T' :: pad2 dt.hour ++ ':' :: pad2 dt.minute ++ ':' :: pad2 dt.second
        ++ (findTZ (pyLower (pyStrip text))).getD "-03:00".data) := by
    rw [hres, fmtDT, hdate]
    simp [List.append_assoc]
  rw [hsplit, ← fmtDate_length (nextDay now), List.take_left]

/-- C2 witness. With `now = 2026-10-12 14:30`, the text
`"amanhã 2025-01-31 18:00"` — which contains both the keyword and an
explicit date — yields tomorrow's date `2026-10-13`, not `2025-01-31`. -/
theorem c2_witness :
    ("2026-10-13T18:00:00-03:00".data).take 10 =
      fmtDate (nextDay ⟨2026, 10, 12, 14, 30, 0⟩) :=
  c2_amanha_precedence ⟨2026, 10, 12, 14, 30, 0⟩
    "amanhã 2025-01-31 18:00".data "2026-10-13T18:00:00-03:00".data
    (by decide) rfl

/-- C3 counterexample. The input `"99:99"` is non-empty and not
whitespace-only, yet `normalize` does not return a canonical timestamp at
all: the extracted hour `99` makes `replace` raise `ValueError`, so the
claim's "for every non-empty input text, normalize returns …" fails. -/
theorem c3_counterexample_invalid_hour :
    isOkE (_to_rfc3339_from_text ⟨2026, 10, 12, 14, 30, 0⟩ "99:99".data)
        = false ∧
      pyStrip "99:99".data ≠ [] := by
  constructor
  · rfl
  · decide

/-- C3 amended. For every input on which `normalize` returns (rather
than raising), the returned string has second precision with seconds
component `00` and ends with an explicit numeric UTC offset: the first
`±HH:MM` substring of the (lower-cased, trimmed) input when one is
present, otherwise `-03:00`. -/
theorem c3_amended_seconds_and_offset (now : PyDateTime) (text res : List Char)
    (hok : _to_rfc3339_from_text now text = .ok res) :
    ∃ pre, res = pre ++ ':' :: '0' :: '0' ::
      (findTZ (pyLower (pyStrip text))).getD "-03:00".data := by
  obtain ⟨dt, hres, -, -, hsec, -⟩ := to_rfc3339_ok_shape now text res hok
  refine ⟨fmtDate dt ++ 'T' :: pad2 dt.hour ++ ':' :: pad2 dt.minute, ?_⟩
  rw [hres, fmtDT, hsec]
  have hz : pad2 0 = ['0', '0'] := rfl
  simp [hz, List.append_assoc]

/-- C3 amended witness. The offset `+05:30` present in the input is
the tail of the successful result, preceded by the `00` seconds. -/
theorem c3_amended_witness :
    ∃ pre, ("2026-10-13T18:00:00+05:30".data : List Char) = pre ++
      ':' :: '0' :: '0' ::
      (findTZ (pyLower (pyStrip "amanhã 18:00+05:30".data))).getD
        "-03:00".data :=
  c3_amended_seconds_and_offset ⟨2026, 10, 12, 14, 30, 0⟩
    "amanhã 18:00+05:30".data "2026-10-13T18:00:00+05:30".data rfl

/-- C4. For every successful run of `normalize`: the hour and minute
of the first `H:MM`/`HH:MM` substring of the (lower-cased, trimmed)
input, when one matches, appear exactly in the result's time-of-day
position; when no such substring matches, the result's time is `09:00`
(the defaulted pair `(9, 0)`). -/
theorem c4_time_preserved_or_default (now : PyDateTime) (text res : List Char)
    (hh mi : Nat)
    (hhm : (findHM (pyLower (pyStrip text))).getD (9, 0) = (hh, mi))
    (hok : _to_rfc3339_from_text now text = .ok res) :
    ∃ d tzo, res = d ++ 'T' ::
        (pad2 hh ++ ':' :: pad2 mi ++ ':' :: '0' :: '0' :: tzo) ∧
      d.length = 10 := by
  obtain ⟨dt, hres, hH, hM, hsec, -⟩ := to_rfc3339_ok_shape now text res hok
  have h1 : dt.hour = hh := by rw [hH, hhm]
  have h2 : dt.minute = mi := by rw [hM, hhm]
  refine ⟨fmtDate dt, (findTZ (pyLower (pyStrip text))).getD "-03:00".data,
    ?_, fmtDate_length dt⟩
  rw [hres, fmtDT, h1, h2, hsec]
  have hz : pad2 0 = ['0', '0'] := rfl
  simp [hz, List.append_assoc]

/-- C4 witness. The explicit time `7:45` of the input appears exactly
as `07:45` in the result (and the `(9, 0)` default governs inputs with no
time, by the same theorem). -/
theorem c4_witness :
    ∃ d tzo, ("2026-10-12T07:45:00-03:00".data : List Char) = d ++ 'T' ::
        (pad2 7 ++ ':' :: pad2 45 ++ ':' :: '0' :: '0' :: tzo) ∧
      d.length = 10 :=
  c4_time_preserved_or_default ⟨2026, 10, 12, 14, 30, 0⟩ "7:45".data
    "2026-10-12T07:45:00-03:00".data 7 45 (by decide) rfl

end TrelloAgentic
